import Mathlib

/-!
Verification of the insight text-parsing engine of DocuMint-AI/documint-frontend
(`src/backend/ai/text_parser.py`), shallowly embedded over lists of Unicode
code points.  Python strings are modelled as `List Nat` (one `Nat` per code
point); each regular expression used by the engine is embedded as a dedicated
scanning function reproducing CPython's leftmost-match and backtracking
behaviour for that particular pattern.  Case-insensitive matching and
`str.lower`/`str.title` are modelled at ASCII level.
-/

/-- Python strings are modelled as lists of code points. -/
abbrev Str := List Nat

/-- Encode a Lean string literal as a list of code points. -/
def enc (s : String) : Str := s.data.map Char.toNat

/-- ASCII lowercasing of one code point (models `str.lower` / `re.IGNORECASE`). -/
def asciiLower (n : Nat) : Nat := if 65 ≤ n ∧ n ≤ 90 then n + 32 else n

/-- ASCII uppercasing of one code point. -/
def asciiUpper (n : Nat) : Nat := if 97 ≤ n ∧ n ≤ 122 then n - 32 else n

/-- ASCII letter test (the cased characters relevant to `str.title`). -/
def isAlphaN (n : Nat) : Bool := (65 ≤ n && n ≤ 90) || (97 ≤ n && n ≤ 122)

/-- Whitespace for `\s` and `str.strip` (ASCII fragment of Python's set). -/
def isWs (n : Nat) : Bool := n == 32 || n == 9 || n == 10 || n == 13 || n == 12 || n == 11

/-- Decimal digit test, models `\d`. -/
def isDigitN (n : Nat) : Bool := 48 ≤ n && n ≤ 57

/-- Word character for `\b` boundaries (`\w` at ASCII level). -/
def wordCharN (n : Nat) : Bool := isDigitN n || isAlphaN n || n == 95

/-- `str.lower` over a whole string. -/
def pyLower (s : Str) : Str := s.map asciiLower

/-- `str.strip()`: drop whitespace from both ends. -/
def pyStrip (s : Str) : Str := ((s.dropWhile (fun c => isWs c)).reverse.dropWhile (fun c => isWs c)).reverse

/-- Case-sensitive `str.startswith` / literal prefix match. -/
def startsWithL : Str → Str → Bool
  | _, [] => true
  | [], _ :: _ => false
  | c :: s, p :: ps => c == p && startsWithL s ps

/-- Case-insensitive prefix match: the pattern is given pre-lowercased. -/
def ciStartsWith : Str → Str → Bool
  | _, [] => true
  | [], _ :: _ => false
  | c :: s, p :: ps => asciiLower c == p && ciStartsWith s ps

/-- Python's substring containment `needle in hay`. -/
def containsSub (needle : Str) : Str → Bool
  | [] => needle.isEmpty
  | c :: rest => startsWithL (c :: rest) needle || containsSub needle rest

/-- `str.split` on a newline, keeping empty pieces (Python `split('\n')`). -/
def pySplitNl : Str → List Str
  | [] => [[]]
  | c :: rest =>
    if c == 10 then [] :: pySplitNl rest
    else
      match pySplitNl rest with
      | h :: t => (c :: h) :: t
      | [] => [[c]]

/-- `' '.join` over a list of strings. -/
def joinSpace (l : List Str) : Str := List.intercalate [32] l

/-- One step of `str.title`: the flag records whether the previous character was cased. -/
def pyTitleGo : Bool → Str → Str
  | _, [] => []
  | prev, c :: rest =>
    let a := isAlphaN c
    (if a then (if prev then asciiLower c else asciiUpper c) else c) :: pyTitleGo a rest

/-- Python `str.title` (ASCII model). -/
def pyTitle (s : Str) : Str := pyTitleGo false s

/-- Lazy `(.+?)` with a lookahead: the shortest non-empty prefix after which
`look` holds (`look [] = true` models the `$` alternative of the lookaheads
used by the engine, so on non-empty input this always succeeds). -/
def lazyTo (look : Str → Bool) : Str → Option Str
  | [] => none
  | c :: rest => if look rest then some [c] else (lazyTo look rest).map (c :: ·)

/-- `\s*(.+)` with `.` not matching newline (patterns `Document Type:`/`Category:`),
returning the captured group and the remaining suffix after the match.
The greedy `\s*` is taken maximal; if nothing follows it, it backtracks to
leave exactly one non-newline whitespace character for `.+` (CPython
behaviour, verified against `re`). -/
def dotPlusGroup (r : Str) : Option (Str × Str) :=
  let w := r.takeWhile (fun c => isWs c)
  let rest := r.drop w.length
  if rest.isEmpty then
    let rv := w.reverse
    let nls := rv.takeWhile (fun c => c == 10)
    match rv.drop nls.length with
    | [] => none
    | c :: _ => some ([c], nls)
  else
    let g := rest.takeWhile (fun c => ¬ (c == 10))
    some (g, rest.drop g.length)

/-- `\s*(.+?)(?=look)` with `.` matching newline (`re.DOTALL`), as in the
content-label and recommendation patterns: greedy `\s*`, then the lazy group;
when everything after the label is whitespace, `\s*` backtracks and the group
captures the final whitespace character (CPython behaviour). -/
def afterColonGroup (look : Str → Bool) (r : Str) : Option Str :=
  let w := r.takeWhile (fun c => isWs c)
  let rest := r.drop w.length
  if rest.isEmpty then
    match w.reverse with
    | [] => none
    | c :: _ => some [c]
  else
    lazyTo look rest

/-- `re.search` driver: scan left to right for the first position where the
(case-insensitively matched) literal `pat` occurs and the continuation `f`
succeeds on the text after it. -/
def scanCi (pat : Str) (f : Str → Option Str) : Str → Option Str
  | [] => none
  | c :: rest =>
    match (if ciStartsWith (c :: rest) pat then f ((c :: rest).drop pat.length) else none) with
    | some r => some r
    | none => scanCi pat f rest

/-- Lookahead `(?=\n|INTENSITY|RECOMMENDATION|$)` of the four content-label patterns. -/
def labelLookahead (r : Str) : Bool :=
  r.isEmpty || r.head? == some 10 || ciStartsWith r (enc "intensity") || ciStartsWith r (enc "recommendation")

/-- Lookahead `(?=\n(?:RISK|COMPLIANCE|SUGGESTION|ANALYSIS)|$)` of the recommendation pattern. -/
def recLookahead (r : Str) : Bool :=
  r.isEmpty ||
    (r.head? == some 10 &&
      (ciStartsWith r.tail (enc "risk") || ciStartsWith r.tail (enc "compliance") ||
       ciStartsWith r.tail (enc "suggestion") || ciStartsWith r.tail (enc "analysis")))

/-- `self.patterns[label]` for a content label: `(?:LABEL|Label):\s*(.+?)(?=\n|INTENSITY|RECOMMENDATION|$)`
with `re.IGNORECASE | re.DOTALL`; `lbl` is the lowercased label without colon. -/
def searchLabelPat (lbl : Str) (s : Str) : Option Str :=
  scanCi (lbl ++ [58]) (afterColonGroup labelLookahead) s

/-- `self.patterns['recommendation']`. -/
def searchRecommendationPat (s : Str) : Option Str :=
  scanCi (enc "recommendation:") (afterColonGroup recLookahead) s

/-- `\s*(High|Medium|Low)` after a label: greedy whitespace, then the first
alternative whose case-insensitive text follows; the raw matched text is the group. -/
def matchIntensityAt (r : Str) : Option Str :=
  let rest := r.dropWhile (fun c => isWs c)
  if ciStartsWith rest (enc "high") then some (rest.take 4)
  else if ciStartsWith rest (enc "medium") then some (rest.take 6)
  else if ciStartsWith rest (enc "low") then some (rest.take 3)
  else none

/-- `self.patterns['intensity']`: `(?:INTENSITY|Intensity):\s*(High|Medium|Low)`, `re.IGNORECASE`. -/
def searchIntensityPat (s : Str) : Option Str :=
  scanCi (enc "intensity:") matchIntensityAt s

/-- `re.search(r'Document Type:\s*(.+)', text, re.IGNORECASE)`. -/
def searchDocTypePat (s : Str) : Option Str :=
  scanCi (enc "document type:") (fun r => (dotPlusGroup r).map (·.1)) s

/-- `re.search(r'Category:\s*(.+)', text, re.IGNORECASE)`. -/
def searchCategoryPat (s : Str) : Option Str :=
  scanCi (enc "category:") (fun r => (dotPlusGroup r).map (·.1)) s

/-- `re.search(r'Confidence:\s*(High|Medium|Low)', text, re.IGNORECASE)`. -/
def searchConfidencePat (s : Str) : Option Str :=
  scanCi (enc "confidence:") matchIntensityAt s

/-- `(takeWhile p l)` is never longer than `l` (helper for termination). -/
theorem takeWhileLenLe (p : Nat → Bool) (l : Str) : (l.takeWhile p).length ≤ l.length := by
  induction l with
  | nil => simp [List.takeWhile]
  | cons c rest ih =>
    simp only [List.takeWhile]
    cases p c <;> simp <;> omega

/-- `(dropWhile p l)` is never longer than `l` (helper for termination). -/
theorem dropWhileLenLe (p : Nat → Bool) (l : Str) : (l.dropWhile p).length ≤ l.length := by
  induction l with
  | nil => simp [List.dropWhile]
  | cons c rest ih =>
    simp only [List.dropWhile]
    cases p c <;> simp <;> omega

/-- The remaining suffix returned by `dotPlusGroup` is no longer than its input. -/
theorem dotPlusGroupRemLe (r g rem : Str) (h : dotPlusGroup r = some (g, rem)) :
    rem.length ≤ r.length := by
  simp only [dotPlusGroup] at h
  split at h
  · split at h
    · exact absurd h (by simp)
    · simp only [Option.some.injEq, Prod.mk.injEq] at h
      obtain ⟨-, h2⟩ := h
      subst h2
      have h3 := takeWhileLenLe (fun c => c == 10) (r.takeWhile (fun c => isWs c)).reverse
      have h4 := takeWhileLenLe (fun c => isWs c) r
      simp only [List.length_reverse] at h3
      omega
  · simp only [Option.some.injEq, Prod.mk.injEq] at h
    obtain ⟨-, h2⟩ := h
    subst h2
    simp only [List.length_drop]
    omega

/-- Global `re.sub(r'\*\*([^*]+)\*\*', r'\1', s)` (and the `__`/`_` analogues):
at each position, a double delimiter followed by a non-empty run of
non-delimiter characters and a closing double delimiter is replaced by the run. -/
def subDoubleF (d : Nat) : Nat → Str → Str
  | _, [] => []
  | 0, s => s
  | fuel + 1, c :: rest =>
    let inner := rest.tail.takeWhile (fun x => ¬ (x == d))
    let after := rest.tail.drop inner.length
    if c == d && rest.head? == some d && !inner.isEmpty && after.take 2 == [d, d] then
      inner ++ subDoubleF d fuel (after.drop 2)
    else
      c :: subDoubleF d fuel rest

def subDouble (d : Nat) (s : Str) : Str := subDoubleF d s.length s

/-- Global `re.sub(r'\*([^*]+)\*', r'\1', s)` (single-delimiter variant). -/
def subSingleF (d : Nat) : Nat → Str → Str
  | _, [] => []
  | 0, s => s
  | fuel + 1, c :: rest =>
    let inner := rest.takeWhile (fun x => ¬ (x == d))
    let after := rest.drop inner.length
    if c == d && !inner.isEmpty && after.head? == some d then
      inner ++ subSingleF d fuel after.tail
    else
      c :: subSingleF d fuel rest

def subSingle (d : Nat) (s : Str) : Str := subSingleF d s.length s

/-- The four markdown-stripping substitutions of the engine, in source order:
`**x**`, then `*x*`, then `__x__`, then `_x_`. -/
def stripMd (s : Str) : Str :=
  subSingle 95 (subDouble 95 (subSingle 42 (subDouble 42 s)))

/-- Match of the tail `\s*\n` of the blank-line separator `\n\s*\n`, starting
just after the initial newline: returns how many characters of `rest` the
greedy-with-backtracking `\s*\n` consumes (up to and including the last
newline of the leading whitespace run), or `none` when the run has no newline. -/
def nlwsTail (rest : Str) : Option Nat :=
  let w := rest.takeWhile (fun c => isWs c)
  let m := (w.reverse.takeWhile (fun c => ¬ (c == 10))).length
  if m == w.length then none else some (w.length - m)

/-- `(?=\d+\.)`: a non-empty digit run whose maximal extent is followed by `.`. -/
def digitDotAt (s : Str) : Bool :=
  let ds := s.takeWhile (fun c => isDigitN c)
  !ds.isEmpty && (s.drop ds.length).head? == some 46

/-- `^\s*[-•*]` of the block-splitting pattern: since the pattern is compiled
without `re.MULTILINE`, `^` only matches at the very start of the string. -/
def bulletStartAt (s : Str) : Bool :=
  match s.drop (s.takeWhile (fun c => isWs c)).length with
  | [] => false
  | c :: _ => c == 45 || c == 8226 || c == 42

/-- The zero-width alternative of `_split_into_blocks`:
`(?=(?:RISK|COMPLIANCE|SUGGESTION|ANALYSIS):|^\s*[-•*]|\d+\.)` (case-sensitive,
no `re.MULTILINE`; `atStart` records whether the position is the string start). -/
def splitBoundary (s : Str) (atStart : Bool) : Bool :=
  startsWithL s (enc "RISK:") || startsWithL s (enc "COMPLIANCE:") ||
    startsWithL s (enc "SUGGESTION:") || startsWithL s (enc "ANALYSIS:") ||
    (atStart && bulletStartAt s) || digitDotAt s

/-- Scanner of `re.split(r'\n\s*\n|(?=...)', text)`: the consuming blank-line
alternative is tried first at each position; a zero-width boundary emits the
piece accumulated so far and advances one character (CPython's empty-match
split behaviour). `acc` is the current piece, reversed. -/
def splitBlocksGoF : Nat → Str → Bool → Str → List Str
  | _, [], _, acc => [acc.reverse]
  | 0, _, _, acc => [acc.reverse]
  | fuel + 1, c :: rest, atStart, acc =>
    if c == 10 then
      match nlwsTail rest with
      | some k => acc.reverse :: splitBlocksGoF fuel (rest.drop k) false []
      | none =>
        if splitBoundary (c :: rest) atStart then
          acc.reverse :: splitBlocksGoF fuel rest false [c]
        else
          splitBlocksGoF fuel rest false (c :: acc)
    else
      if splitBoundary (c :: rest) atStart then
        acc.reverse :: splitBlocksGoF fuel rest false [c]
      else
        splitBlocksGoF fuel rest false (c :: acc)

def splitBlocksGo (s : Str) (atStart : Bool) (acc : Str) : List Str :=
  splitBlocksGoF s.length s atStart acc

/-- `_split_into_blocks`: split, then `[block.strip() for block in blocks if block.strip()]`. -/
def splitIntoBlocks (s : Str) : List Str :=
  ((splitBlocksGo s true []).map pyStrip).filter (fun b => !b.isEmpty)

/-- Attempt of `^\s*[-•*]\s*(.+)` at a line-start position: greedy `\s*`
(which may cross newlines), a bullet character, then `\s*(.+)`; returns the
captured group and the suffix after the whole match. -/
def tryBullet (s : Str) : Option (Str × Str) :=
  let k := (s.takeWhile (fun c => isWs c)).length
  match s.drop k with
  | [] => none
  | c :: t => if c == 45 || c == 8226 || c == 42 then dotPlusGroup t else none

/-- A successful bullet match consumes at least one character. -/
theorem tryBulletRemLt (s : Str) (g rem : Str) (h : tryBullet s = some (g, rem)) :
    rem.length < s.length ∨ s.isEmpty := by
  simp only [tryBullet] at h
  cases hm : s.drop (s.takeWhile (fun c => isWs c)).length with
  | nil => rw [hm] at h; exact absurd h (by simp)
  | cons c t =>
    rw [hm] at h
    simp only [] at h
    by_cases hb : (c == 45 || c == 8226 || c == 42) = true
    · rw [if_pos hb] at h
      have h1 := dotPlusGroupRemLe t g rem h
      have h2 : (c :: t).length ≤ s.length := by
        rw [← hm]; simp only [List.length_drop]; omega
      simp only [List.length_cons] at h2
      cases s with
      | nil => right; rfl
      | cons a b => left; simp only [List.length_cons] at h2 ⊢; omega
    · rw [if_neg hb] at h; exact absurd h (by simp)

/-- Attempt of `^\s*\d+\.\s*(.+)` at a line-start position. -/
def tryNumbered (s : Str) : Option (Str × Str) :=
  let k := (s.takeWhile (fun c => isWs c)).length
  let t := s.drop k
  let ds := t.takeWhile (fun c => isDigitN c)
  if ds.isEmpty then none
  else
    match t.drop ds.length with
    | [] => none
    | c :: t2 => if c == 46 then dotPlusGroup t2 else none

/-- A successful numbered-point match consumes at least one character. -/
theorem tryNumberedRemLt (s : Str) (g rem : Str) (h : tryNumbered s = some (g, rem)) :
    rem.length < s.length ∨ s.isEmpty := by
  simp only [tryNumbered] at h
  by_cases hd : ((s.drop (s.takeWhile (fun c => isWs c)).length).takeWhile (fun c => isDigitN c)).isEmpty = true
  · rw [if_pos hd] at h; exact absurd h (by simp)
  · rw [if_neg hd] at h
    cases hm : (s.drop (s.takeWhile (fun c => isWs c)).length).drop
        ((s.drop (s.takeWhile (fun c => isWs c)).length).takeWhile (fun c => isDigitN c)).length with
    | nil => rw [hm] at h; exact absurd h (by simp)
    | cons c t2 =>
      rw [hm] at h
      simp only [] at h
      by_cases hb : (c == 46) = true
      · rw [if_pos hb] at h
        have h1 := dotPlusGroupRemLe t2 g rem h
        have h2 : (c :: t2).length ≤ s.length := by
          rw [← hm]; simp only [List.length_drop]; omega
        simp only [List.length_cons] at h2
        cases s with
        | nil => right; rfl
        | cons a b => left; simp only [List.length_cons] at h2 ⊢; omega
      · rw [if_neg hb] at h; exact absurd h (by simp)

/-- `re.findall(r'^\s*[-•*]\s*(.+)', text, re.MULTILINE)`: scan for line starts
(`atLS`); at each, try the bullet pattern; matched groups are collected and
scanning resumes after the match (group text never ends in a newline, so the
position after a match is never a line start). -/
def findallBulletsF : Nat → Str → Bool → List Str
  | _, [], _ => []
  | 0, _, _ => []
  | fuel + 1, c :: rest, atLS =>
    if atLS then
      match tryBullet (c :: rest) with
      | some (g, rem) => g :: findallBulletsF fuel rem false
      | none => findallBulletsF fuel rest (c == 10)
    else
      findallBulletsF fuel rest (c == 10)

def findallBullets (s : Str) (atLS : Bool) : List Str := findallBulletsF s.length s atLS

/-- `re.findall(r'^\s*\d+\.\s*(.+)', text, re.MULTILINE)`. -/
def findallNumberedF : Nat → Str → Bool → List Str
  | _, [], _ => []
  | 0, _, _ => []
  | fuel + 1, c :: rest, atLS =>
    if atLS then
      match tryNumbered (c :: rest) with
      | some (g, rem) => g :: findallNumberedF fuel rem false
      | none => findallNumberedF fuel rest (c == 10)
    else
      findallNumberedF fuel rest (c == 10)

def findallNumbered (s : Str) (atLS : Bool) : List Str := findallNumberedF s.length s atLS

/-- Sentence/fragment terminator class `[.!?]`. -/
def isSentPunct (n : Nat) : Bool := n == 46 || n == 33 || n == 63

/-- `re.split(r'[.!?]+', text)`: maximal punctuation runs are separators. -/
def splitPunctGoF : Nat → Str → Str → List Str
  | _, [], acc => [acc.reverse]
  | 0, _, acc => [acc.reverse]
  | fuel + 1, c :: rest, acc =>
    if isSentPunct c then
      acc.reverse :: splitPunctGoF fuel (rest.dropWhile (fun x => isSentPunct x)) []
    else
      splitPunctGoF fuel rest (c :: acc)

def splitPunctGo (s : Str) (acc : Str) : List Str := splitPunctGoF s.length s acc

/-- `_split_into_sentences`: split on punctuation runs, keep the stripped
fragments whose stripped length exceeds 10. -/
def splitIntoSentences (s : Str) : List Str :=
  ((splitPunctGo s []).map pyStrip).filter (fun t => 10 < t.length)

/-- `self.fallback_patterns['intensity_keywords']` alternation, in source order. -/
def intensityKwAlts : List Str :=
  [enc "critical", enc "high", enc "significant", enc "major", enc "serious",
   enc "important", enc "medium", enc "moderate", enc "low", enc "minor", enc "minimal"]

/-- One attempt of `\b(critical|high|...)\b` at a position whose left `\b`
already holds: first alternative that matches case-insensitively with a word
boundary after it; returns the raw matched text and the suffix after it. -/
def tryKwAt (s : Str) : Option (Str × Str) :=
  match intensityKwAlts.find?
      (fun w => ciStartsWith s w &&
        (match s.drop w.length with
         | [] => true
         | c :: _ => !wordCharN c)) with
  | some w => some (s.take w.length, s.drop w.length)
  | none => none

/-- A successful keyword match consumes at least one character. -/
theorem tryKwAtRemLt (c : Nat) (rest : Str) (g rem : Str)
    (h : tryKwAt (c :: rest) = some (g, rem)) : rem.length < (c :: rest).length := by
  unfold tryKwAt at h
  cases hf : intensityKwAlts.find?
      (fun w => ciStartsWith (c :: rest) w &&
        (match (c :: rest).drop w.length with
         | [] => true
         | c :: _ => !wordCharN c)) with
  | none => rw [hf] at h; exact absurd h (by simp)
  | some w =>
    rw [hf] at h
    simp only [Option.some.injEq, Prod.mk.injEq] at h
    obtain ⟨-, h2⟩ := h
    subst h2
    have hw : w ∈ intensityKwAlts := List.mem_of_find?_eq_some hf
    have hne : 1 ≤ w.length := by
      fin_cases hw <;> simp [enc]
    simp only [List.length_drop, List.length_cons]
    omega

/-- `re.findall` driver for the intensity-keyword pattern: `prevW` records
whether the previous character is a word character (so the left `\b` holds
exactly when `prevW` is false). -/
def findIntensityKwsF : Nat → Str → Bool → List Str
  | _, [], _ => []
  | 0, _, _ => []
  | fuel + 1, c :: rest, prevW =>
    if prevW then
      findIntensityKwsF fuel rest (wordCharN c)
    else
      match tryKwAt (c :: rest) with
      | some (g, rem) => g :: findIntensityKwsF fuel rem true
      | none => findIntensityKwsF fuel rest (wordCharN c)

def findIntensityKws (s : Str) (prevW : Bool) : List Str := findIntensityKwsF s.length s prevW

/-- `self.type_keywords`, in dict insertion order. -/
def riskKeywordList : List Str :=
  [enc "risk", enc "danger", enc "threat", enc "liability", enc "exposure",
   enc "vulnerability", enc "concern", enc "problem", enc "issue"]

def complianceKeywordList : List Str :=
  [enc "compliance", enc "regulatory", enc "legal", enc "requirement",
   enc "mandate", enc "obligation", enc "violation", enc "breach"]

def suggestionKeywordList : List Str :=
  [enc "suggest", enc "recommend", enc "improve", enc "enhance", enc "optimize",
   enc "consider", enc "should", enc "could", enc "might"]

/-- `_infer_type`: first keyword vocabulary with a (substring) hit wins, else
the caller-supplied default type. -/
def inferType (text defaultType : Str) : Str :=
  let textLower := pyLower text
  if riskKeywordList.any (fun k => containsSub k textLower) then enc "risk"
  else if complianceKeywordList.any (fun k => containsSub k textLower) then enc "compliance"
  else if suggestionKeywordList.any (fun k => containsSub k textLower) then enc "suggestion"
  else defaultType

/-- `_infer_intensity`: word-boundary keyword scan with High-before-Medium
priority, then the substring-based secondary heuristic. -/
def inferIntensity (text : Str) : Str :=
  let ms := findIntensityKws text false
  if !ms.isEmpty then
    if [enc "critical", enc "high", enc "significant", enc "major", enc "serious"].any
        (fun w => ms.any (fun m => pyLower m == w)) then enc "High"
    else if [enc "important", enc "medium", enc "moderate"].any
        (fun w => ms.any (fun m => pyLower m == w)) then enc "Medium"
    else enc "Low"
  else
    let textLower := pyLower text
    if [enc "must", enc "required", enc "critical", enc "essential", enc "urgent"].any
        (fun w => containsSub w textLower) then enc "High"
    else if [enc "should", enc "recommended", enc "important", enc "consider"].any
        (fun w => containsSub w textLower) then enc "Medium"
    else enc "Low"

/-- `_generate_recommendation`. -/
def generateRecommendation (insightType description : Str) : Str :=
  if insightType = enc "risk" then
    enc "Consider mitigating this risk through contract amendments or additional safeguards."
  else if insightType = enc "compliance" then
    enc "Ensure compliance by consulting legal counsel and updating relevant clauses."
  else
    enc "Review this recommendation and consider implementing the suggested improvements."

/-- Final truncation of `_extract_main_content`:
`main_content[:200] + "..." if len(main_content) > 200 else main_content`. -/
def mdTruncate (m : Str) : Str :=
  if 200 < m.length then m.take 200 ++ enc "..." else m

/-- `_extract_main_content`: keep stripped lines that are non-empty and do not
start with `Based on` or `Document`, join with spaces, strip markdown, truncate. -/
def extractMainContent (s : Str) : Str :=
  let contentLines := (pySplitNl s).filterMap (fun l =>
    let ls := pyStrip l
    if !ls.isEmpty && !startsWithL ls (enc "Based on") && !startsWithL ls (enc "Document")
    then some ls else none)
  mdTruncate (stripMd (joinSpace contentLines))

/-- The `ParsedInsight` dataclass.  The `confidence` float only ever holds the
literals 0.6, 0.7 and 0.8, so it is modelled exactly in tenths (`0.8` ↦ `8`). -/
structure ParsedInsight where
  type : Str
  intensity : Str
  description : Str
  recommendation : Str
  confidence : Nat
deriving DecidableEq, Repr

/-- `_create_insight_from_text`. -/
def createInsightFromText (text defaultType : Str) : ParsedInsight :=
  let insightType := inferType text defaultType
  let intensity := inferIntensity text
  let description := stripMd (pyStrip text)
  let description := if description.getLast? == some 46 then description.dropLast else description
  { type := insightType
  , intensity := intensity
  , description := description
  , recommendation := generateRecommendation insightType description
  , confidence := 7 }

/-- Priority search of the four content-label patterns of `_parse_single_block`
(dict iteration order: risk, compliance, suggestion, analysis). -/
def findFirstLabel (block : Str) : Option (Str × Str) :=
  match searchLabelPat (enc "risk") block with
  | some g => some (enc "risk", g)
  | none =>
    match searchLabelPat (enc "compliance") block with
    | some g => some (enc "compliance", g)
    | none =>
      match searchLabelPat (enc "suggestion") block with
      | some g => some (enc "suggestion", g)
      | none =>
        match searchLabelPat (enc "analysis") block with
        | some g => some (enc "analysis", g)
        | none => none

/-- `_parse_single_block`. -/
def parseSingleBlock (block defaultType : Str) : Option ParsedInsight :=
  match findFirstLabel block with
  | none => none
  | some (labelName, g) =>
    let description := pyStrip g
    if description.isEmpty then none
    else
      let insightType := if labelName = enc "analysis" then defaultType else labelName
      let description := pyStrip (stripMd description)
      let intensity :=
        match searchIntensityPat block with
        | some ig => pyTitle ig
        | none => inferIntensity description
      let recom :=
        match searchRecommendationPat block with
        | some rg =>
          let r0 := pyStrip rg
          if r0.isEmpty then r0 else pyStrip (stripMd r0)
        | none => enc "Consider reviewing this item carefully."
      some
        { type := insightType
        , intensity := intensity
        , description := description
        , recommendation := recom
        , confidence := 8 }

/-- `_parse_structured_format`. -/
def parseStructuredFormat (s defaultType : Str) : List ParsedInsight :=
  (splitIntoBlocks s).filterMap (fun b => parseSingleBlock b defaultType)

/-- `_parse_unstructured_format`. -/
def parseUnstructuredFormat (s defaultType : Str) : List ParsedInsight :=
  let ins1 := ((findallBullets s true).take 5).map (fun m => createInsightFromText m defaultType)
  let ins2 :=
    if ins1.isEmpty then
      ((findallNumbered s true).take 5).map (fun m => createInsightFromText m defaultType)
    else ins1
  if ins2.isEmpty then
    (((splitIntoSentences s).take 3).filter (fun t => 20 < (pyStrip t).length)).map
      (fun t => createInsightFromText t defaultType)
  else ins2

/-- The Insight Assembler's synthetic last-resort insight. -/
def mkDefaultInsight (s defaultType : Str) : ParsedInsight :=
  { type := defaultType
  , intensity := enc "Medium"
  , description := extractMainContent s
  , recommendation := enc "Review this analysis and consider the implications for your document."
  , confidence := 6 }

/-- `parse_insights_from_text`. -/
def parseInsightsFromText (s defaultType : Str) : List ParsedInsight :=
  let ins1 := parseStructuredFormat s defaultType
  let ins2 := if ins1.isEmpty then parseUnstructuredFormat s defaultType else ins1
  if ins2.isEmpty then [mkDefaultInsight s defaultType] else ins2

/-- Result dictionary of `parse_document_type`. -/
structure DocTypeResult where
  document_type : Str
  category : Str
  confidence : Str
deriving DecidableEq, Repr

/-- The common document-type noun vocabulary of the classifier's fallback. -/
def docTypeNouns : List Str :=
  [enc "agreement", enc "contract", enc "policy", enc "terms",
   enc "conditions", enc "lease", enc "nda", enc "employment"]

/-- The keyword test of the classifier fallback: `doc_type.lower() in line.lower()`. -/
def docTypeKeywordHit (line : Str) : Bool :=
  docTypeNouns.any (fun k => containsSub (pyLower k) (pyLower line))

/-- The fallback loop of `parse_document_type`: skip empty or preamble lines,
stop at the first qualifying line; return it when it mentions a document-type
noun, nothing otherwise. -/
def docFallbackScan : List Str → Option Str
  | [] => none
  | l :: rest =>
    let ls := pyStrip l
    if ls.isEmpty || startsWithL ls (enc "Based on") || startsWithL ls (enc "This document") then
      docFallbackScan rest
    else if docTypeKeywordHit ls then some ls
    else none

/-- `parse_document_type`. -/
def parseDocumentType (s : Str) : DocTypeResult :=
  let dt :=
    match searchDocTypePat s with
    | some g => pyStrip g
    | none => enc "Unknown Document"
  let cat :=
    match searchCategoryPat s with
    | some g => pyStrip g
    | none => enc "Legal"
  let conf :=
    match searchConfidencePat s with
    | some g => pyTitle g
    | none => enc "Medium"
  let dt2 :=
    if dt = enc "Unknown Document" then
      match docFallbackScan ((pySplitNl s).take 3) with
      | some line => line
      | none => dt
    else dt
  { document_type := dt2, category := cat, confidence := conf }

/-- Whole-word (word-boundary delimited, case-insensitive) occurrence test,
used to state that a keyword appears only inside a longer word. -/
def wordOccursGo (w : Str) : Str → Bool → Bool
  | [], _ => false
  | c :: rest, prevW =>
    (!prevW && ciStartsWith (c :: rest) w &&
      (match (c :: rest).drop w.length with
       | [] => true
       | x :: _ => !wordCharN x)) || wordOccursGo w rest (wordCharN c)

/-- Whole-word occurrence anywhere in a string. -/
def wordOccurs (w s : Str) : Bool := wordOccursGo w s false

/-- The engine always returns at least one insight (shared helper). -/
theorem parseInsightsNeNil (s d : Str) : parseInsightsFromText s d ≠ [] := by
  unfold parseInsightsFromText
  simp only [List.isEmpty_iff]
  split
  · split <;> simp_all
  · next h => exact h

/-- Helper: `inferIntensity` only produces the three enumerated levels. -/
theorem inferIntensityCases (t : Str) :
    inferIntensity t = enc "Low" ∨ inferIntensity t = enc "Medium" ∨ inferIntensity t = enc "High" := by
  simp only [inferIntensity]
  split
  · split
    · simp
    · split
      · simp
      · simp
  · split
    · simp
    · split
      · simp
      · simp

/-- Helper: `inferType` only produces the three keyword types or the default. -/
theorem inferTypeCases (t d : Str) :
    inferType t d = enc "risk" ∨ inferType t d = enc "compliance" ∨
      inferType t d = enc "suggestion" ∨ inferType t d = d := by
  simp only [inferType]
  split
  · simp
  · split
    · simp
    · split
      · simp
      · simp

/-- Helper: characters whose ASCII lowercase form is a given lowercase letter. -/
theorem asciiLowerInv (a l : Nat) (h : asciiLower a = l) (h1 : 97 ≤ l) (h2 : l ≤ 122) :
    isAlphaN a = true ∧ asciiUpper a = l - 32 ∧ asciiLower a = l := by
  unfold asciiLower at h
  split at h
  · next hr =>
    refine ⟨?_, ?_, ?_⟩
    · simp only [isAlphaN]; simp; omega
    · unfold asciiUpper; rw [if_neg (by omega)]; omega
    · unfold asciiLower; rw [if_pos (by omega)]; omega
  · next hr =>
    subst h
    refine ⟨?_, ?_, ?_⟩
    · simp only [isAlphaN]; simp; omega
    · unfold asciiUpper; rw [if_pos (by omega)]
    · unfold asciiLower; rw [if_neg hr]

/-- Helper: `str.title` maps a case-insensitive match of a lowercase word back
to the word itself on the non-initial characters. -/
theorem pyTitleGoCi (p : Str) (hp : ∀ c ∈ p, 97 ≤ c ∧ c ≤ 122) :
    ∀ t : Str, ciStartsWith t p = true → pyTitleGo true (t.take p.length) = p := by
  induction p with
  | nil => intro t _; simp [pyTitleGo]
  | cons l ps ih =>
    intro t hci
    cases t with
    | nil => simp [ciStartsWith] at hci
    | cons a t2 =>
      simp only [ciStartsWith, Bool.and_eq_true, beq_iff_eq] at hci
      obtain ⟨hal, hrest⟩ := hci
      have hl := hp l (by simp)
      obtain ⟨ha1, -, ha3⟩ := asciiLowerInv a l hal hl.1 hl.2
      simp only [List.length_cons, List.take_succ_cons, pyTitleGo, ha1, if_true]
      rw [ha3, ih (fun c hc => hp c (by simp [hc])) t2 hrest]

/-- Helper: `str.title` of a case-insensitive match of a lowercase word is the
title-cased word. -/
theorem pyTitleCiHead (l : Nat) (ps : Str) (hl : 97 ≤ l ∧ l ≤ 122)
    (hp : ∀ c ∈ ps, 97 ≤ c ∧ c ≤ 122) :
    ∀ t : Str, ciStartsWith t (l :: ps) = true →
      pyTitle (t.take (l :: ps).length) = (l - 32) :: ps := by
  intro t hci
  cases t with
  | nil => simp [ciStartsWith] at hci
  | cons a t2 =>
    simp only [ciStartsWith, Bool.and_eq_true, beq_iff_eq] at hci
    obtain ⟨hal, hrest⟩ := hci
    obtain ⟨ha1, ha2, -⟩ := asciiLowerInv a l hal hl.1 hl.2
    simp only [pyTitle, List.length_cons, List.take_succ_cons, pyTitleGo, ha1, if_true]
    rw [ha2, pyTitleGoCi ps hp t2 hrest]
    simp

/-- Helper: a successful `(High|Medium|Low)` group always title-cases to one of
the three enumerated levels. -/
theorem matchIntensityAtTitle (r g : Str) (h : matchIntensityAt r = some g) :
    pyTitle g = enc "High" ∨ pyTitle g = enc "Medium" ∨ pyTitle g = enc "Low" := by
  simp only [matchIntensityAt] at h
  split at h
  · next hc =>
    left
    simp only [Option.some.injEq] at h
    subst h
    rw [show enc "high" = 104 :: [105, 103, 104] from by decide] at hc
    rw [show enc "High" = [104 - 32, 105, 103, 104] from by decide]
    have h2 := pyTitleCiHead 104 [105, 103, 104] (by omega) (by decide) _ hc
    simpa using h2
  · split at h
    · next hc =>
      right; left
      simp only [Option.some.injEq] at h
      subst h
      rw [show enc "medium" = 109 :: [101, 100, 105, 117, 109] from by decide] at hc
      rw [show enc "Medium" = [109 - 32, 101, 100, 105, 117, 109] from by decide]
      have h2 := pyTitleCiHead 109 [101, 100, 105, 117, 109] (by omega) (by decide) _ hc
      simpa using h2
    · split at h
      · next hc =>
        right; right
        simp only [Option.some.injEq] at h
        subst h
        rw [show enc "low" = 108 :: [111, 119] from by decide] at hc
        rw [show enc "Low" = [108 - 32, 111, 119] from by decide]
        have h2 := pyTitleCiHead 108 [111, 119] (by omega) (by decide) _ hc
        simpa using h2
      · exact absurd h (by simp)

/-- Helper: a successful search yields a successful match somewhere. -/
theorem scanCiInv (pat : Str) (f : Str → Option Str) :
    ∀ s g, scanCi pat f s = some g → ∃ t, f t = some g := by
  intro s
  induction s with
  | nil => intro g h; simp [scanCi] at h
  | cons c rest ih =>
    intro g h
    unfold scanCi at h
    split at h
    · next r hr =>
      injection h with h2
      subst h2
      split at hr
      · exact ⟨_, hr⟩
      · simp at hr
    · exact ih g h

/-- Helper: the intensity-label group always title-cases to an enumerated level. -/
theorem searchIntensityPatTitle (b g : Str) (h : searchIntensityPat b = some g) :
    pyTitle g = enc "High" ∨ pyTitle g = enc "Medium" ∨ pyTitle g = enc "Low" := by
  obtain ⟨t, ht⟩ := scanCiInv _ _ _ _ h
  exact matchIntensityAtTitle t g ht

/-- Helper: the first matching content label is one of the four label names. -/
theorem findFirstLabelCases (b : Str) (tn g : Str) (h : findFirstLabel b = some (tn, g)) :
    tn = enc "risk" ∨ tn = enc "compliance" ∨ tn = enc "suggestion" ∨ tn = enc "analysis" := by
  unfold findFirstLabel at h
  split at h
  · injection h with h2; injection h2 with h3 h4; subst h3; simp
  · split at h
    · injection h with h2; injection h2 with h3 h4; subst h3; simp
    · split at h
      · injection h with h2; injection h2 with h3 h4; subst h3; simp
      · split at h
        · injection h with h2; injection h2 with h3 h4; subst h3; simp
        · simp at h

/-- A description field as the engine can produce it: some source text passed
through the markdown-stripping step (with the surrounding strip / trailing-dot
removal / truncation of the particular construction site). -/
def DescFromMd (w : Str) : Prop :=
  ∃ a, w = pyStrip (stripMd a) ∨ w = stripMd (pyStrip a) ∨
    w = (stripMd (pyStrip a)).dropLast ∨ w = mdTruncate (stripMd a)

/-- A recommendation field as the engine can produce it: one of the five fixed
template sentences, or extracted text passed through the markdown-stripping
step and stripped. -/
def RecFromMd (w : Str) : Prop :=
  w = enc "Consider reviewing this item carefully." ∨
  w = enc "Consider mitigating this risk through contract amendments or additional safeguards." ∨
  w = enc "Ensure compliance by consulting legal counsel and updating relevant clauses." ∨
  w = enc "Review this recommendation and consider implementing the suggested improvements." ∨
  w = enc "Review this analysis and consider the implications for your document." ∨
  ∃ a, w = pyStrip (stripMd a)

/-- Invariant satisfied by every insight the engine can construct. -/
def InsightShape (d : Str) (i : ParsedInsight) : Prop :=
  (i.intensity = enc "Low" ∨ i.intensity = enc "Medium" ∨ i.intensity = enc "High") ∧
  (i.type = enc "risk" ∨ i.type = enc "compliance" ∨ i.type = enc "suggestion" ∨ i.type = d) ∧
  DescFromMd i.description ∧ RecFromMd i.recommendation

/-- Helper: every structured-block insight satisfies the shape invariant. -/
theorem parseSingleBlockShape (b d : Str) (i : ParsedInsight)
    (h : parseSingleBlock b d = some i) : InsightShape d i := by
  unfold parseSingleBlock at h
  cases hf : findFirstLabel b with
  | none => rw [hf] at h; simp at h
  | some p =>
    obtain ⟨tn, g⟩ := p
    rw [hf] at h
    simp only [] at h
    split at h
    · simp at h
    · injection h with h2
      subst h2
      refine ⟨?_, ?_, ⟨pyStrip g, Or.inl rfl⟩, ?_⟩
      · cases hi : searchIntensityPat b with
        | some ig =>
          simp only [hi]
          have h3 := searchIntensityPatTitle b ig hi
          tauto
        | none =>
          simp only [hi]
          have h3 := inferIntensityCases (pyStrip (stripMd (pyStrip g)))
          tauto
      · by_cases ht : tn = enc "analysis"
        · simp [ht]
        · simp only [ht, if_false]
          have h3 := findFirstLabelCases b tn g hf
          tauto
      · cases hr : searchRecommendationPat b with
        | some rg =>
          simp only [hr]
          split
          · next he =>
            right; right; right; right; right
            exact ⟨[], by simp only [List.isEmpty_iff] at he; rw [he]; rfl⟩
          · right; right; right; right; right
            exact ⟨pyStrip rg, rfl⟩
        | none =>
          simp only [hr]
          left; rfl

/-- Helper: every fallback insight satisfies the shape invariant. -/
theorem createInsightShape (t d : Str) : InsightShape d (createInsightFromText t d) := by
  refine ⟨?_, ?_, ?_, ?_⟩
  · have h3 := inferIntensityCases t
    simpa [createInsightFromText] using h3
  · have h3 := inferTypeCases t d
    simpa [createInsightFromText] using h3
  · refine ⟨t, ?_⟩
    simp only [createInsightFromText]
    split
    · right; right; left; rfl
    · right; left; rfl
  · simp only [createInsightFromText, generateRecommendation]
    split
    · right; left; rfl
    · split
      · right; right; left; rfl
      · right; right; right; left; rfl

/-- Helper: the assembler's synthetic insight satisfies the shape invariant. -/
theorem defaultInsightShape (s d : Str) : InsightShape d (mkDefaultInsight s d) := by
  refine ⟨Or.inr (Or.inl rfl), Or.inr (Or.inr (Or.inr rfl)), ?_, ?_⟩
  · exact ⟨joinSpace ((pySplitNl s).filterMap (fun l =>
      let ls := pyStrip l
      if !ls.isEmpty && !startsWithL ls (enc "Based on") && !startsWithL ls (enc "Document")
      then some ls else none)), Or.inr (Or.inr (Or.inr rfl))⟩
  · right; right; right; right; left; rfl

/-- Helper: membership in the structured result implies the shape invariant. -/
theorem memStructuredShape (s d : Str) (i : ParsedInsight)
    (h : i ∈ parseStructuredFormat s d) : InsightShape d i := by
  unfold parseStructuredFormat at h
  obtain ⟨b, -, hb⟩ := List.mem_filterMap.1 h
  exact parseSingleBlockShape b d i hb

/-- Helper: membership in the fallback result implies the shape invariant. -/
theorem memUnstructuredShape (s d : Str) (i : ParsedInsight)
    (h : i ∈ parseUnstructuredFormat s d) : InsightShape d i := by
  simp only [parseUnstructuredFormat] at h
  split at h
  · split at h
    · obtain ⟨t, -, rfl⟩ := List.mem_map.1 h
      exact createInsightShape t d
    · obtain ⟨t, -, rfl⟩ := List.mem_map.1 h
      exact createInsightShape t d
  · obtain ⟨t, -, rfl⟩ := List.mem_map.1 h
    exact createInsightShape t d

/-- Every insight the engine returns satisfies the shape invariant. -/
theorem insightShapeOfMem (s d : Str) (i : ParsedInsight)
    (h : i ∈ parseInsightsFromText s d) : InsightShape d i := by
  simp only [parseInsightsFromText] at h
  split at h
  · split at h
    · simp only [List.mem_singleton] at h
      subst h
      exact defaultInsightShape s d
    · exact memUnstructuredShape s d i h
  · exact memStructuredShape s d i h

/-- Claim C1: for every input string (including the empty string and purely
boilerplate text) and every default insight type, `parse_insights_from_text`
returns a sequence containing at least one Insight; when all extraction stages
yield nothing it contains exactly one synthesized Insight with intensity
Medium and confidence 0.6 (modelled as 6 tenths). -/
theorem claimC1 (s d : Str) :
    parseInsightsFromText s d ≠ [] ∧
      (parseStructuredFormat s d = [] → parseUnstructuredFormat s d = [] →
        parseInsightsFromText s d = [mkDefaultInsight s d] ∧
        (mkDefaultInsight s d).intensity = enc "Medium" ∧
        (mkDefaultInsight s d).confidence = 6) := by
  refine ⟨parseInsightsNeNil s d, fun h1 h2 => ⟨?_, rfl, rfl⟩⟩
  unfold parseInsightsFromText
  simp [h1, h2]

/-- Witness for claim C1 at the empty input, where both extraction stages
yield nothing. -/
theorem claimC1_witness :
    parseInsightsFromText (enc "") (enc "suggestion") ≠ [] ∧
      parseInsightsFromText (enc "") (enc "suggestion") =
        [mkDefaultInsight (enc "") (enc "suggestion")] ∧
      (mkDefaultInsight (enc "") (enc "suggestion")).intensity = enc "Medium" ∧
      (mkDefaultInsight (enc "") (enc "suggestion")).confidence = 6 := by
  obtain ⟨h1, h2⟩ := claimC1 (enc "") (enc "suggestion")
  exact ⟨h1, h2 (by decide) (by decide)⟩

/-- Claim C2: for every input string, `parse_document_type` and
`parse_insights_from_text` (with any default type) terminate normally and
never raise — both are total functions of this embedding — and every absent
pattern falls through to a weaker extraction stage or to the documented
default values (`Unknown Document` / `Legal` / `Medium`, and the assembler's
single synthetic insight keeping the result non-empty). -/
theorem claimC2 (s d : Str) :
    parseInsightsFromText s d ≠ [] ∧
      (searchDocTypePat s = none → docFallbackScan ((pySplitNl s).take 3) = none →
        (parseDocumentType s).document_type = enc "Unknown Document") ∧
      (searchCategoryPat s = none → (parseDocumentType s).category = enc "Legal") ∧
      (searchConfidencePat s = none → (parseDocumentType s).confidence = enc "Medium") := by
  refine ⟨parseInsightsNeNil s d, fun h1 h2 => ?_, fun h => ?_, fun h => ?_⟩
  · unfold parseDocumentType
    simp [h1, h2]
  · unfold parseDocumentType
    simp [h]
  · unfold parseDocumentType
    simp [h]

/-- Witness for claim C2 at the empty input, where every pattern is absent. -/
theorem claimC2_witness :
    parseInsightsFromText (enc "") (enc "analysis") ≠ [] ∧
      (parseDocumentType (enc "")).document_type = enc "Unknown Document" ∧
      (parseDocumentType (enc "")).category = enc "Legal" ∧
      (parseDocumentType (enc "")).confidence = enc "Medium" := by
  obtain ⟨h1, h2, h3, h4⟩ := claimC2 (enc "") (enc "analysis")
  exact ⟨h1, h2 (by decide) (by decide), h3 (by decide), h4 (by decide)⟩

/-- Counterexample to claim C3 as stated: with the out-of-vocabulary default
type `other`, the empty input produces an insight whose `type` is `other`,
outside the four enumerated kinds. -/
theorem claimC3_counterexample :
    (parseInsightsFromText (enc "") (enc "other")).all
      (fun i => [enc "risk", enc "compliance", enc "suggestion", enc "analysis"].contains i.type)
      = false := by decide

/-- Claim C3 (amended): for every input text and default type, every returned
Insight has intensity in {Low, Medium, High}; and whenever the caller-supplied
default type is itself one of the four enumerated kinds, every returned
Insight's type is one of those four kinds. -/
theorem claimC3_amended (s d : Str) :
    (∀ i ∈ parseInsightsFromText s d,
      i.intensity = enc "Low" ∨ i.intensity = enc "Medium" ∨ i.intensity = enc "High") ∧
    ((d = enc "risk" ∨ d = enc "compliance" ∨ d = enc "suggestion" ∨ d = enc "analysis") →
      ∀ i ∈ parseInsightsFromText s d,
        i.type = enc "risk" ∨ i.type = enc "compliance" ∨ i.type = enc "suggestion" ∨
          i.type = enc "analysis") := by
  constructor
  · intro i hi
    exact (insightShapeOfMem s d i hi).1
  · intro hd i hi
    have h3 := (insightShapeOfMem s d i hi).2.1
    rcases h3 with h | h | h | h <;> simp [h]
    exact hd

/-- Witness for claim C3 (amended) at a structured risk block with the
enumerated default type `analysis`. -/
theorem claimC3_amended_witness :
    (∀ i ∈ parseInsightsFromText (enc "RISK: trouble") (enc "analysis"),
      i.intensity = enc "Low" ∨ i.intensity = enc "Medium" ∨ i.intensity = enc "High") ∧
    (∀ i ∈ parseInsightsFromText (enc "RISK: trouble") (enc "analysis"),
      i.type = enc "risk" ∨ i.type = enc "compliance" ∨ i.type = enc "suggestion" ∨
        i.type = enc "analysis") := by
  obtain ⟨h1, h2⟩ := claimC3_amended (enc "RISK: trouble") (enc "analysis")
  exact ⟨h1, h2 (by simp)⟩

/-- Claim C4: on the block `RISK: Excessive liability exposure\nINTENSITY:
High\nRECOMMENDATION: Add a liability cap.` and any default type, the
Structured-Block Interpreter yields exactly one Insight with type `risk`,
intensity `High`, description `Excessive liability exposure` and
recommendation `Add a liability cap.`. -/
theorem claimC4 (d : Str) :
    parseSingleBlock
      (enc "RISK: Excessive liability exposure\nINTENSITY: High\nRECOMMENDATION: Add a liability cap.") d =
      some { type := enc "risk", intensity := enc "High",
             description := enc "Excessive liability exposure",
             recommendation := enc "Add a liability cap.", confidence := 8 } := by
  have h : findFirstLabel
      (enc "RISK: Excessive liability exposure\nINTENSITY: High\nRECOMMENDATION: Add a liability cap.") =
      some (enc "risk", enc "Excessive liability exposure") := by decide
  unfold parseSingleBlock
  rw [h]
  simp only []
  rw [if_neg (by decide : ¬ (pyStrip (enc "Excessive liability exposure")).isEmpty = true)]
  rw [if_neg (by decide : ¬ enc "risk" = enc "analysis")]
  decide

/-- Modelled from the amended claim: a blank-line separator is a newline, then
a whitespace run that itself contains a newline; the separator consumes through
the last newline of that run. -/
def specC5BlankSep (rest : Str) : Option Nat :=
  let w := rest.takeWhile (fun c => isWs c)
  if w.any (fun c => c == 10) then
    some (w.length - (w.reverse.takeWhile (fun c => ¬ (c == 10))).length)
  else none

theorem specC5BlankSepEq (rest : Str) : specC5BlankSep rest = nlwsTail rest := by
  unfold specC5BlankSep nlwsTail
  simp only []
  cases hany : (rest.takeWhile (fun c => isWs c)).any (fun c => c == 10) with
  | false =>
    have hall : ∀ c ∈ rest.takeWhile (fun c => isWs c), ¬ (c == 10) = true := by
      simp only [List.any_eq_false] at hany
      intro c hc
      simpa using hany c hc
    have heq : (rest.takeWhile (fun c => isWs c)).reverse.takeWhile (fun c => ¬ (c == 10)) =
        (rest.takeWhile (fun c => isWs c)).reverse := by
      rw [List.takeWhile_eq_self_iff]
      intro c hc
      exact by simpa using hall c (by simpa using hc)
    simp only [hany, Bool.false_eq_true, if_false]
    rw [if_pos (by rw [heq]; simp)]
  | true =>
    simp only [hany, if_true]
    rw [if_neg]
    intro hcon
    have hlen : ((rest.takeWhile (fun c => isWs c)).reverse.takeWhile
        (fun c => ¬ (c == 10))).length = (rest.takeWhile (fun c => isWs c)).reverse.length := by
      simpa using of_decide_eq_true hcon
    have heq : (rest.takeWhile (fun c => isWs c)).reverse.takeWhile (fun c => ¬ (c == 10)) =
        (rest.takeWhile (fun c => isWs c)).reverse :=
      (List.takeWhile_prefix _).eq_of_length hlen
    simp only [List.any_eq_true] at hany
    obtain ⟨c, hc, hc10⟩ := hany
    have hmem : c ∈ (rest.takeWhile (fun c => isWs c)).reverse.takeWhile
        (fun c => ¬ (c == 10)) := by
      rw [heq]; simpa using hc
    have h5 := List.mem_takeWhile_imp hmem
    simp_all


theorem dropLenTakeWhile (p : Nat → Bool) (l : Str) :
    l.drop (l.takeWhile p).length = l.dropWhile p := by
  induction l with
  | nil => rfl
  | cons c rest ih =>
    simp only [List.takeWhile, List.dropWhile]
    cases p c
    · simp
    · simpa using ih

/-- Modelled from the amended claim: the zero-width boundaries of the Block
Segmenter — an uppercase content label (with colon) at any position, a bullet
marker after optional whitespace only at the start of the whole text, or a
non-empty digit run followed by a period at any position. -/
def specC5Boundary (s : Str) (atStart : Bool) : Bool :=
  ([enc "RISK:", enc "COMPLIANCE:", enc "SUGGESTION:", enc "ANALYSIS:"].any
      (fun lbl => startsWithL s lbl)) ||
  (atStart && (match s.dropWhile (fun c => isWs c) with
               | [] => false
               | c :: _ => c == 45 || c == 8226 || c == 42)) ||
  (!(s.takeWhile (fun c => isDigitN c)).isEmpty &&
    (s.drop (s.takeWhile (fun c => isDigitN c)).length).head? == some 46)

theorem specC5BoundaryEq (s : Str) (a : Bool) : specC5Boundary s a = splitBoundary s a := by
  unfold specC5Boundary splitBoundary bulletStartAt digitDotAt
  simp only [dropLenTakeWhile, List.any_cons, List.any_nil, Bool.or_false, Bool.or_assoc]

/-- Modelled from the amended claim: the segmenter scan — a blank-line
separator ends the current block and is consumed; a zero-width boundary ends
the current block in place; any other character joins the current block. -/
def specC5Scan : Nat → Str → Bool → Str → List Str
  | _, [], _, acc => [acc.reverse]
  | 0, _, _, acc => [acc.reverse]
  | fuel + 1, c :: rest, atStart, acc =>
    if c == 10 then
      match specC5BlankSep rest with
      | some k => acc.reverse :: specC5Scan fuel (rest.drop k) false []
      | none =>
        if specC5Boundary (c :: rest) atStart then
          acc.reverse :: specC5Scan fuel rest false [c]
        else specC5Scan fuel rest false (c :: acc)
    else
      if specC5Boundary (c :: rest) atStart then
        acc.reverse :: specC5Scan fuel rest false [c]
      else specC5Scan fuel rest false (c :: acc)

/-- Modelled from the amended claim: segment, trim each block, discard empties. -/
def specC5Blocks (s : Str) : List Str :=
  ((specC5Scan s.length s true []).map pyStrip).filter (fun b => !b.isEmpty)

theorem specC5ScanEq (fuel : Nat) :
    ∀ s a acc, specC5Scan fuel s a acc = splitBlocksGoF fuel s a acc := by
  induction fuel with
  | zero => intro s a acc; cases s <;> rfl
  | succ fuel ih =>
    intro s a acc
    cases s with
    | nil => rfl
    | cons c rest =>
      unfold specC5Scan splitBlocksGoF
      simp only [specC5BlankSepEq, specC5BoundaryEq, ih]


/-- Counterexample to claim C5 as stated: the split pattern is compiled
without `re.MULTILINE`, so a bullet at the start of a non-initial line does
NOT open a boundary (first input stays one block, not `["abc", "- def"]`),
while a digit run followed by a period splits in the middle of a line. -/
theorem claimC5_counterexample :
    splitIntoBlocks (enc "abc\n- def") = [enc "abc\n- def"] ∧
    ¬ splitIntoBlocks (enc "abc\n- def") = [enc "abc", enc "- def"] ∧
    splitIntoBlocks (enc "a 2. b") = [enc "a", enc "2. b"] := by decide

/-- Claim C5 (amended): for every input text, the Block Segmenter splits on
blank-line separators and at zero-width boundaries immediately before an
uppercase RISK:/COMPLIANCE:/SUGGESTION:/ANALYSIS: label at any position,
immediately before a bullet marker (-, •, *) preceded only by whitespace at
the start of the whole text (not of every line), and immediately before a
digit run followed by `.` at any position (not only at line starts); the
resulting blocks are trimmed and empty blocks are discarded.  The engine's
segmenter coincides with this amended specification. -/
theorem claimC5_amended (s : Str) : splitIntoBlocks s = specC5Blocks s := by
  unfold splitIntoBlocks specC5Blocks splitBlocksGo
  rw [specC5ScanEq]

/-- Counterexample to claim C6 as stated: `Payment terms ok` is a kept
fragment (16 > 10 characters) among the first 3, yet it yields no insight —
the code additionally requires more than 20 characters — so the engine falls
through to the assembler's synthetic insight with confidence 0.6, not 0.7. -/
theorem claimC6_counterexample :
    splitIntoSentences (enc "Payment terms ok") = [enc "Payment terms ok"] ∧
    10 < (enc "Payment terms ok").length ∧
    parseInsightsFromText (enc "Payment terms ok") (enc "suggestion") =
      [mkDefaultInsight (enc "Payment terms ok") (enc "suggestion")] ∧
    (mkDefaultInsight (enc "Payment terms ok") (enc "suggestion")).confidence = 6 := by decide

/-- Claim C6 (amended): in the sentence-level fallback (structured parsing
produced nothing, no bullet lines, no numbered lines), the text is split on
`.`, `!`, `?`; every fragment longer than 10 characters after trimming is
kept, and each of the first 3 kept fragments WHOSE TRIMMED LENGTH EXCEEDS 20
yields one Insight with confidence 0.7 (modelled as 7 tenths). -/
theorem claimC6_amended (s d : Str)
    (h1 : parseStructuredFormat s d = [])
    (h2 : findallBullets s true = [])
    (h3 : findallNumbered s true = []) :
    parseUnstructuredFormat s d =
      (((splitIntoSentences s).take 3).filter (fun t => 20 < (pyStrip t).length)).map
        (fun t => createInsightFromText t d) ∧
    (∀ t ∈ splitIntoSentences s, 10 < t.length) ∧
    (∀ i ∈ parseUnstructuredFormat s d, i.confidence = 7) := by
  have e : parseUnstructuredFormat s d =
      (((splitIntoSentences s).take 3).filter (fun t => 20 < (pyStrip t).length)).map
        (fun t => createInsightFromText t d) := by
    unfold parseUnstructuredFormat
    simp [h2, h3]
  refine ⟨e, ?_, ?_⟩
  · intro t ht
    unfold splitIntoSentences at ht
    simp only [List.mem_filter, decide_eq_true_eq] at ht
    exact ht.2
  · intro i hi
    rw [e] at hi
    obtain ⟨t, -, rfl⟩ := List.mem_map.1 hi
    rfl

/-- Witness for claim C6 (amended) at an unstructured sentence longer than 20
characters. -/
theorem claimC6_amended_witness :
    parseUnstructuredFormat (enc "This agreement has a problem that matters") (enc "suggestion") =
      (((splitIntoSentences (enc "This agreement has a problem that matters")).take 3).filter
        (fun t => 20 < (pyStrip t).length)).map
        (fun t => createInsightFromText t (enc "suggestion")) ∧
    (∀ t ∈ splitIntoSentences (enc "This agreement has a problem that matters"), 10 < t.length) ∧
    (∀ i ∈ parseUnstructuredFormat (enc "This agreement has a problem that matters")
        (enc "suggestion"), i.confidence = 7) :=
  claimC6_amended (enc "This agreement has a problem that matters") (enc "suggestion")
    (by decide) (by decide) (by decide)

/-- Modelled from the claim's words of C7 (not from the code): scan the first
three NON-empty lines of the response, skip preamble lines, and use the first
qualifying line when it mentions a document-type noun. -/
def specC7ClaimScan (s : Str) : Str :=
  match docFallbackScan (((pySplitNl s).filter (fun l => !(pyStrip l).isEmpty)).take 3) with
  | some line => line
  | none => enc "Unknown Document"

/-- Counterexample to claim C7 as stated: the code scans the first three
lines of the raw newline split, not the first three non-empty lines; on
`\n\n\nLease Agreement` all three scanned lines are empty, so the code keeps
`Unknown Document` while the claim's reading yields `Lease Agreement`. -/
theorem claimC7_counterexample :
    (parseDocumentType (enc "\n\n\nLease Agreement")).document_type = enc "Unknown Document" ∧
    specC7ClaimScan (enc "\n\n\nLease Agreement") = enc "Lease Agreement" ∧
    searchDocTypePat (enc "\n\n\nLease Agreement") = none := by decide

/-- Modelled from the amended claim: scan the first three lines of the
newline-split text; skip lines that are empty after trimming or that start
with the preambles `Based on` / `This document`; for the first remaining line,
return its trimmed text exactly when it contains one of the document-type
nouns case-insensitively, and nothing otherwise. -/
def specC7AmendedScan : List Str → Option Str
  | [] => none
  | l :: rest =>
    if (pyStrip l).isEmpty || startsWithL (pyStrip l) (enc "Based on")
        || startsWithL (pyStrip l) (enc "This document") then
      specC7AmendedScan rest
    else if docTypeNouns.any (fun k => containsSub (pyLower k) (pyLower (pyStrip l))) then
      some (pyStrip l)
    else none

/-- Helper: the code's fallback loop coincides with the amended-claim scan. -/
theorem docFallbackScanIsSpec (ls : List Str) : docFallbackScan ls = specC7AmendedScan ls := by
  induction ls with
  | nil => rfl
  | cons l rest ih =>
    unfold docFallbackScan specC7AmendedScan docTypeKeywordHit
    simp only []
    split
    · exact ih
    · rfl

/-- Claim C7 (amended): when no `Document Type:` labeled line matches,
`parse_document_type` scans the first three lines of the newline split
(including empty ones), skips lines empty after trimming and preamble lines,
and for the first qualifying line sets `document_type` to the TRIMMED line
exactly when it contains one of the document-type nouns case-insensitively;
otherwise `document_type` remains `Unknown Document`. -/
theorem claimC7_amended (s : Str) (h : searchDocTypePat s = none) :
    (parseDocumentType s).document_type =
      match specC7AmendedScan ((pySplitNl s).take 3) with
      | some line => line
      | none => enc "Unknown Document" := by
  unfold parseDocumentType
  simp only [h]
  rw [docFallbackScanIsSpec]
  simp

/-- Witness for claim C7 (amended) on an input whose third line qualifies. -/
theorem claimC7_amended_witness :
    (parseDocumentType (enc "\nBased on review\n  Lease agreement stuff  ")).document_type =
      match specC7AmendedScan ((pySplitNl (enc "\nBased on review\n  Lease agreement stuff  ")).take 3) with
      | some line => line
      | none => enc "Unknown Document" :=
  claimC7_amended (enc "\nBased on review\n  Lease agreement stuff  ") (by decide)

/-- Counterexample to claim C8 as stated: `*ab*` is the output of the
stripping step on the description `**a*b*`, yet stripping it again yields
`ab`, so the stripping step is not idempotent on its image. -/
theorem claimC8_counterexample :
    stripMd (enc "**a*b*") = enc "*ab*" ∧ stripMd (enc "*ab*") = enc "ab" ∧
    ¬ stripMd (stripMd (enc "**a*b*")) = stripMd (enc "**a*b*") := by decide

/-- Helper: the double-delimiter substitution is the identity on strings
without the delimiter. -/
theorem subDoubleFId (d : Nat) (fuel : Nat) :
    ∀ s : Str, (∀ c ∈ s, ¬ c = d) → subDoubleF d fuel s = s := by
  induction fuel with
  | zero => intro s _; cases s <;> rfl
  | succ fuel ih =>
    intro s hs
    cases s with
    | nil => rfl
    | cons c rest =>
      have hc : (c == d) = false := by
        simp only [beq_eq_false_iff_ne, ne_eq]
        exact hs c (by simp)
      unfold subDoubleF
      simp only [hc, Bool.false_and, if_false]
      rw [ih rest (fun x hx => hs x (by simp [hx]))]
      simp

/-- Helper: the single-delimiter substitution is the identity on strings
without the delimiter. -/
theorem subSingleFId (d : Nat) (fuel : Nat) :
    ∀ s : Str, (∀ c ∈ s, ¬ c = d) → subSingleF d fuel s = s := by
  induction fuel with
  | zero => intro s _; cases s <;> rfl
  | succ fuel ih =>
    intro s hs
    cases s with
    | nil => rfl
    | cons c rest =>
      have hc : (c == d) = false := by
        simp only [beq_eq_false_iff_ne, ne_eq]
        exact hs c (by simp)
      unfold subSingleF
      simp only [hc, Bool.false_and, if_false]
      rw [ih rest (fun x hx => hs x (by simp [hx]))]
      simp

/-- Claim C8 (amended): the markdown-stripping step is the identity — hence
idempotent — on every string containing neither `*` nor `_`; in particular
re-stripping any stripped description whose result is free of `*` and `_`
returns it unchanged. -/
theorem claimC8_amended (s : Str) (h : ∀ c ∈ s, c ≠ 42 ∧ c ≠ 95) :
    stripMd s = s ∧ stripMd (stripMd s) = stripMd s := by
  have h42 : ∀ c ∈ s, ¬ c = 42 := fun c hc => (h c hc).1
  have h95 : ∀ c ∈ s, ¬ c = 95 := fun c hc => (h c hc).2
  have e : stripMd s = s := by
    unfold stripMd subDouble subSingle
    rw [subDoubleFId 42 _ s h42, subSingleFId 42 _ s h42,
        subDoubleFId 95 _ s h95, subSingleFId 95 _ s h95]
  exact ⟨e, by rw [e, e]⟩

/-- Witness for claim C8 (amended) on a delimiter-free description. -/
theorem claimC8_amended_witness :
    stripMd (enc "plain text") = enc "plain text" ∧
    stripMd (stripMd (enc "plain text")) = stripMd (enc "plain text") :=
  claimC8_amended (enc "plain text") (by decide)

/-- Counterexample to claim C9 as stated: the empty input yields an insight
with an empty description, and a structured block whose recommendation strips
to whitespace yields an empty recommendation. -/
theorem claimC9_counterexample :
    (∃ i ∈ parseInsightsFromText (enc "") (enc "suggestion"), i.description = []) ∧
    (∃ i ∈ parseInsightsFromText (enc "RISK: danger\nRECOMMENDATION: ** **") (enc "suggestion"),
      i.recommendation = []) := by decide

/-- Claim C9 (amended): every Insight returned by `parse_insights_from_text`
has a description and recommendation that are produced by the
markdown-stripping step (together with the stripping / trailing-dot removal /
truncation of its construction site), the recommendation being either such a
stripped extraction or one of the five fixed non-empty template sentences;
either field may be empty when the corresponding extracted text is empty or
strips to whitespace (e.g. on empty input). -/
theorem claimC9_amended (s d : Str) (i : ParsedInsight) (h : i ∈ parseInsightsFromText s d) :
    DescFromMd i.description ∧ RecFromMd i.recommendation :=
  ⟨(insightShapeOfMem s d i h).2.2.1, (insightShapeOfMem s d i h).2.2.2⟩

/-- Witness for claim C9 (amended) at the assembler's fallback insight. -/
theorem claimC9_amended_witness :
    DescFromMd (mkDefaultInsight (enc "") (enc "suggestion")).description ∧
    RecFromMd (mkDefaultInsight (enc "") (enc "suggestion")).recommendation :=
  claimC9_amended (enc "") (enc "suggestion") (mkDefaultInsight (enc "") (enc "suggestion"))
    (by decide)

/-- Claim C10: in the unstructured fallback, type inference tests substring
containment rather than whole-word occurrence: the fragment `It was reissued`
contains the risk keyword `issue` only inside the longer word `reissued` — no
risk keyword occurs as a whole word — yet the inferred type is `risk` even
though the default type `suggestion` differs. -/
theorem claimC10 :
    (createInsightFromText (enc "It was reissued") (enc "suggestion")).type = enc "risk" ∧
    inferType (enc "It was reissued") (enc "suggestion") = enc "risk" ∧
    containsSub (enc "issue") (pyLower (enc "It was reissued")) = true ∧
    riskKeywordList.all (fun k => !wordOccurs k (enc "It was reissued")) = true ∧
    enc "suggestion" ≠ enc "risk" := by decide
